import Mathlib

/-!
Shallow embedding of the `securepass` password-security toolkit
(`src/securepass/core/{analyzer,entropy,breach,generator}.py`,
`src/securepass/utils/{patterns,wordlist}.py`) and proofs about it.

Modelling conventions:
* Python strings are `List Char`; `ord` is `Char.toNat`.
* Python floats are modelled as exact rationals (`ℚ`): every claim about
  them only compares against integer thresholds.  The library function
  `math.log2` is an oracle parameter `log2 : Nat → ℚ` (the floating-point
  value the interpreter supplies).
* The `secrets` random source and the `requests` network layer are oracle
  parameters; hypotheses state only what the real implementations
  guarantee (a chosen element belongs to the sequence it was drawn from, a
  shuffle is a permutation, a network attempt either yields a parsed
  response or fails).
-/

namespace SecurePass

/-- `string.ascii_lowercase` from the Python standard library. -/
def ascii_lowercase : List Char := ("abcdefghijklmnopqrstuvwxyz").toList

/-- `string.ascii_uppercase` from the Python standard library. -/
def ascii_uppercase : List Char := ("ABCDEFGHIJKLMNOPQRSTUVWXYZ").toList

/-- `string.digits` from the Python standard library. -/
def ascii_digits : List Char := ("0123456789").toList

/-- `string.punctuation` from the Python standard library: the 32 ASCII
punctuation characters (code points 33-47, 58-64, 91-96, 123-126, in order). -/
def ascii_punctuation : List Char :=
  ("!\"#$%&\x27()*+,-./:;<=>?@[\\]^_\x60\x7b|\x7d~").toList

/-- `entropy.get_character_pool_size`: presence-based pool size.  The Python
code starts from 0 and adds each class size with `+=` behind an `any(...)`
membership test; the empty password returns 0 through the `if not password`
guard (and also through every `any` being false). -/
def get_character_pool_size (password : List Char) : Nat :=
  if password = [] then 0
  else
    (if password.any (fun c => ascii_lowercase.contains c) then 26 else 0) +
    (if password.any (fun c => ascii_uppercase.contains c) then 26 else 0) +
    (if password.any (fun c => ascii_digits.contains c) then 10 else 0) +
    (if password.any (fun c => ascii_punctuation.contains c) then 32 else 0)

/-- `entropy.calculate_entropy`.  `math.log2` is the oracle `log2`, applied to
the pool size; the result is `log2(pool) * len(password)` unless the password
is empty or the pool size is 0, in which case `(0.0, 0)` is returned. -/
def calculate_entropy (log2 : Nat → ℚ) (password : List Char) : ℚ × Nat :=
  if password = [] then (0, 0)
  else
    let pool_size := get_character_pool_size password
    if pool_size = 0 then (0, 0)
    else (log2 pool_size * (password.length : ℚ), pool_size)

/-- The 8 named boolean criteria of `analyzer._check_criteria`, in the
insertion order of the Python dict. -/
structure Criteria where
  min_length : Bool
  has_lowercase : Bool
  has_uppercase : Bool
  has_digits : Bool
  has_symbols : Bool
  no_common_patterns : Bool
  no_dictionary_words : Bool
  no_sequential_chars : Bool
deriving DecidableEq, Repr

/-- `criteria.values()` of the Python dict, in insertion order. -/
def criteriaValues (c : Criteria) : List Bool :=
  [c.min_length, c.has_lowercase, c.has_uppercase, c.has_digits,
   c.has_symbols, c.no_common_patterns, c.no_dictionary_words,
   c.no_sequential_chars]

/-- `analyzer.calculate_strength_score`:
`sum(10 for passed in criteria.values() if passed)` plus a tiered entropy
bonus, capped at 100. -/
def calculate_strength_score (criteria : Criteria) (entropy : ℚ) : Nat :=
  let base_score := ((criteriaValues criteria).map
    (fun passed => if passed then 10 else 0)).sum
  let entropy_bonus :=
    if entropy ≥ 70 then 20
    else if entropy ≥ 60 then 15
    else if entropy ≥ 50 then 10
    else if entropy ≥ 40 then 5
    else 0
  min (base_score + entropy_bonus) 100

/-- `analyzer._determine_rating`. -/
def determine_rating (score : Nat) : String :=
  if score < 40 then "weak"
  else if score < 70 then "moderate"
  else if score < 90 then "strong"
  else "very_strong"

/-- The all-true criteria record. -/
def allCriteriaTrue : Criteria :=
  ⟨true, true, true, true, true, true, true, true⟩

/-- The all-false criteria record. -/
def allCriteriaFalse : Criteria :=
  ⟨false, false, false, false, false, false, false, false⟩

lemma sum_map_ten (l : List Bool) :
    (l.map (fun passed => if passed then 10 else 0)).sum = 10 * l.count true := by
  induction l with
  | nil => simp
  | cons b t ih =>
    cases b <;> simp [ih, List.count_cons]
    omega

/-- C1: the strength score is `min(base + bonus, 100)` with
`base = 10 × (number of criteria met)` and the tiered entropy bonus, together
with the concrete anchor points of the spec. -/
theorem claim_C1_score (c : Criteria) (e : ℚ) :
    calculate_strength_score c e =
      min (10 * (criteriaValues c).count true +
        (if 70 ≤ e then 20 else if 60 ≤ e then 15 else if 50 ≤ e then 10
         else if 40 ≤ e then 5 else 0)) 100 ∧
    (∀ e₂ : ℚ, 70 ≤ e₂ → calculate_strength_score allCriteriaTrue e₂ = 100) ∧
    (∀ e₂ : ℚ, e₂ ≤ 0 → calculate_strength_score allCriteriaFalse e₂ = 0) ∧
    calculate_strength_score allCriteriaFalse 45 = 5 ∧
    calculate_strength_score allCriteriaFalse 55 = 10 ∧
    calculate_strength_score allCriteriaFalse 65 = 15 ∧
    calculate_strength_score allCriteriaFalse 75 = 20 := by
  refine ⟨?_, ?_, ?_, by decide, by decide, by decide, by decide⟩
  · unfold calculate_strength_score
    rw [sum_map_ten]
  · intro e₂ h
    unfold calculate_strength_score
    rw [if_pos (by exact_mod_cast h)]
    decide
  · intro e₂ h
    unfold calculate_strength_score
    rw [if_neg (by intro hc; linarith), if_neg (by intro hc; linarith),
        if_neg (by intro hc; linarith), if_neg (by intro hc; linarith)]
    decide

/-- Witness for C1 at concrete inputs. -/
theorem claim_C1_score_witness :
    calculate_strength_score allCriteriaTrue 70 = 100 ∧
    calculate_strength_score allCriteriaFalse 0 = 0 :=
  ⟨(claim_C1_score allCriteriaTrue 70).2.1 70 (by norm_num),
   (claim_C1_score allCriteriaFalse 0).2.2.1 0 (by norm_num)⟩

/-- C2: rating thresholds on the score, with the boundary values. -/
theorem claim_C2_rating (s : Nat) :
    (s < 40 → determine_rating s = "weak") ∧
    (40 ≤ s → s < 70 → determine_rating s = "moderate") ∧
    (70 ≤ s → s < 90 → determine_rating s = "strong") ∧
    (90 ≤ s → determine_rating s = "very_strong") ∧
    determine_rating 39 = "weak" ∧ determine_rating 40 = "moderate" ∧
    determine_rating 69 = "moderate" ∧ determine_rating 70 = "strong" ∧
    determine_rating 89 = "strong" ∧ determine_rating 90 = "very_strong" := by
  unfold determine_rating
  refine ⟨?_, ?_, ?_, ?_, by decide, by decide, by decide, by decide, by decide, by decide⟩
  · intro h; rw [if_pos h]
  · intro h1 h2; rw [if_neg (by omega), if_pos h2]
  · intro h1 h2; rw [if_neg (by omega), if_neg (by omega), if_pos h2]
  · intro h; rw [if_neg (by omega), if_neg (by omega), if_neg (by omega)]

/-- Witness for C2 at concrete scores. -/
theorem claim_C2_rating_witness :
    determine_rating 0 = "weak" ∧ determine_rating 100 = "very_strong" :=
  ⟨(claim_C2_rating 0).1 (by norm_num), (claim_C2_rating 100).2.2.2.1 (by norm_num)⟩

/-- The lowercase letters a-z by code point, following the wording of the
specification (for comparison with the source-derived `ascii_lowercase`). -/
def lowerLetters : List Char := (List.range 26).map (fun i => Char.ofNat (97 + i))

/-- The uppercase letters A-Z by code point. -/
def upperLetters : List Char := (List.range 26).map (fun i => Char.ofNat (65 + i))

/-- The digits 0-9 by code point. -/
def digitChars : List Char := (List.range 10).map (fun i => Char.ofNat (48 + i))

/-- The 32 ASCII punctuation characters by code point
(33-47, 58-64, 91-96, 123-126). -/
def punctChars : List Char :=
  (List.range 15).map (fun i => Char.ofNat (33 + i)) ++
  (List.range 7).map (fun i => Char.ofNat (58 + i)) ++
  (List.range 6).map (fun i => Char.ofNat (91 + i)) ++
  (List.range 4).map (fun i => Char.ofNat (123 + i))

lemma ascii_lowercase_eq : ascii_lowercase = lowerLetters := by decide

lemma ascii_uppercase_eq : ascii_uppercase = upperLetters := by decide

lemma ascii_digits_eq : ascii_digits = digitChars := by decide

lemma ascii_punctuation_eq : ascii_punctuation = punctChars := by decide

lemma any_contains_iff (p l : List Char) :
    p.any (fun c => l.contains c) = true ↔ ∃ c ∈ p, c ∈ l := by
  simp [List.any_eq_true]

/-- C3: the pool size is the sum of exactly the active class sizes, detected
by presence, and the entropy is `log2(pool) * length` except for the empty
password or an empty pool. -/
theorem claim_C3_entropy (log2 : Nat → ℚ) (p : List Char) :
    get_character_pool_size p =
      (if ∃ c ∈ p, c ∈ lowerLetters then 26 else 0) +
      (if ∃ c ∈ p, c ∈ upperLetters then 26 else 0) +
      (if ∃ c ∈ p, c ∈ digitChars then 10 else 0) +
      (if ∃ c ∈ p, c ∈ punctChars then 32 else 0) ∧
    (p = [] ∨ get_character_pool_size p = 0 → calculate_entropy log2 p = (0, 0)) ∧
    (p ≠ [] → get_character_pool_size p ≠ 0 →
      calculate_entropy log2 p =
        (log2 (get_character_pool_size p) * (p.length : ℚ),
         get_character_pool_size p)) := by
  refine ⟨?_, ?_, ?_⟩
  · by_cases hp : p = []
    · subst hp; simp [get_character_pool_size]
    · rw [get_character_pool_size, if_neg hp]
      rw [ascii_lowercase_eq, ascii_uppercase_eq, ascii_digits_eq,
          ascii_punctuation_eq]
      simp only [any_contains_iff]
  · rintro (rfl | h0)
    · simp [calculate_entropy]
    · rw [calculate_entropy]
      by_cases hp : p = []
      · rw [if_pos hp]
      · rw [if_neg hp]
        simp [h0]
  · intro hp h0
    rw [calculate_entropy, if_neg hp]
    simp only [h0, if_neg h0, ite_false]

/-- Witness for C3 at a one-letter password. -/
theorem claim_C3_entropy_witness :
    calculate_entropy (fun _ => (5 : ℚ)) (("a").toList) = (5, 26) := by
  have h := (claim_C3_entropy (fun _ => (5 : ℚ)) (("a").toList)).2.2
    (by decide) (by decide)
  simpa using h

/-- `patterns.has_sequential_chars` inner ascending test: every adjacent pair
of the window increases by exactly 1 in code-point value
(`ord(sub[j+1]) == ord(sub[j]) + 1`). -/
def ascendingWindow (sub : List Char) : Bool :=
  (List.range (sub.length - 1)).all fun j =>
    (sub.getD (j + 1) 'a').toNat == (sub.getD j 'a').toNat + 1

/-- Descending test: `ord(sub[j+1]) == ord(sub[j]) - 1` over the exact Python
integers, stated without natural-number truncation as
`ord(sub[j+1]) + 1 == ord(sub[j])`. -/
def descendingWindow (sub : List Char) : Bool :=
  (List.range (sub.length - 1)).all fun j =>
    (sub.getD (j + 1) 'a').toNat + 1 == (sub.getD j 'a').toNat

/-- `patterns.has_sequential_chars`: slides a window of `min_length`
characters (`password[i : i + min_length]`) and reports true when some window
is entirely ascending or entirely descending. -/
def has_sequential_chars (password : List Char) (min_length : Nat := 3) : Bool :=
  if password = [] then false
  else if password.length < min_length then false
  else (List.range (password.length - min_length + 1)).any fun i =>
    let sub := (password.drop i).take min_length
    ascendingWindow sub || descendingWindow sub

/-- An ascending run of 3 starting at index `i`, in the words of the spec. -/
def seqAscAt (p : List Char) (i : Nat) : Prop :=
  ∀ j < 2, (p.getD (i + j + 1) 'a').toNat = (p.getD (i + j) 'a').toNat + 1

/-- A descending run of 3 starting at index `i`. -/
def seqDescAt (p : List Char) (i : Nat) : Prop :=
  ∀ j < 2, (p.getD (i + j + 1) 'a').toNat + 1 = (p.getD (i + j) 'a').toNat

/-- Some window of 3 consecutive characters is an ascending or a descending
run of code points. -/
def hasSeqSpec (p : List Char) : Prop :=
  ∃ i, i + 3 ≤ p.length ∧ (seqAscAt p i ∨ seqDescAt p i)

lemma getD_take_drop (p : List Char) (i j k : Nat) (h : j < k) :
    ((p.drop i).take k).getD j 'a' = p.getD (i + j) 'a' := by
  rw [List.getD_eq_getElem?_getD, List.getD_eq_getElem?_getD,
      List.getElem?_take_of_lt h, List.getElem?_drop]

lemma window_length (p : List Char) (i : Nat) (h : i + 3 ≤ p.length) :
    ((p.drop i).take 3).length = 3 := by
  simp only [List.length_take, List.length_drop]
  omega

lemma window_asc_iff (p : List Char) (i : Nat) (h : i + 3 ≤ p.length) :
    ascendingWindow ((p.drop i).take 3) = true ↔ seqAscAt p i := by
  rw [ascendingWindow, window_length p i h]
  simp only [List.all_eq_true, List.mem_range, beq_iff_eq, seqAscAt]
  constructor
  · intro H j hj
    have := H j (by omega)
    rwa [getD_take_drop p i (j + 1) 3 (by omega),
         getD_take_drop p i j 3 (by omega)] at this
  · intro H j hj
    rw [getD_take_drop p i (j + 1) 3 (by omega),
        getD_take_drop p i j 3 (by omega)]
    exact H j (by omega)

lemma window_desc_iff (p : List Char) (i : Nat) (h : i + 3 ≤ p.length) :
    descendingWindow ((p.drop i).take 3) = true ↔ seqDescAt p i := by
  rw [descendingWindow, window_length p i h]
  simp only [List.all_eq_true, List.mem_range, beq_iff_eq, seqDescAt]
  constructor
  · intro H j hj
    have := H j (by omega)
    rwa [getD_take_drop p i (j + 1) 3 (by omega),
         getD_take_drop p i j 3 (by omega)] at this
  · intro H j hj
    rw [getD_take_drop p i (j + 1) 3 (by omega),
        getD_take_drop p i j 3 (by omega)]
    exact H j (by omega)

/-- C7: for passwords of length at least 3, `has_sequential_chars` with the
default minimum run of 3 holds exactly when some window of 3 consecutive
characters ascends by 1 at every step or descends by 1 at every step, and the
concrete examples of the spec evaluate as stated. -/
theorem claim_C7_sequential (p : List Char) (hlen : 3 ≤ p.length) :
    (has_sequential_chars p 3 = true ↔ hasSeqSpec p) ∧
    has_sequential_chars (("abc").toList) 3 = true ∧
    has_sequential_chars (("cba").toList) 3 = true ∧
    has_sequential_chars (("a1b2c3").toList) 3 = false := by
  refine ⟨?_, by decide, by decide, by decide⟩
  have hne : p ≠ [] := by
    intro h; rw [h] at hlen; simp at hlen
  rw [has_sequential_chars, if_neg hne, if_neg (by omega)]
  simp only [List.any_eq_true, List.mem_range, Bool.or_eq_true]
  constructor
  · rintro ⟨i, hi, hw⟩
    have hi3 : i + 3 ≤ p.length := by omega
    rcases hw with ha | hd
    · exact ⟨i, hi3, Or.inl ((window_asc_iff p i hi3).mp ha)⟩
    · exact ⟨i, hi3, Or.inr ((window_desc_iff p i hi3).mp hd)⟩
  · rintro ⟨i, hi3, hw⟩
    refine ⟨i, by omega, ?_⟩
    rcases hw with ha | hd
    · exact Or.inl ((window_asc_iff p i hi3).mpr ha)
    · exact Or.inr ((window_desc_iff p i hi3).mpr hd)

/-- Witness for C7: the spec-level sequential-run predicate holds of "abc". -/
theorem claim_C7_sequential_witness : hasSeqSpec (("abc").toList) :=
  ((claim_C7_sequential (("abc").toList) (by decide)).1).mp (by decide)

/-- ASCII case lowering: model of Python `str.lower()` on the ASCII
passwords and wordlist entries the toolkit handles. -/
def py_lower (c : Char) : Char :=
  if 65 ≤ c.toNat ∧ c.toNat ≤ 90 then Char.ofNat (c.toNat + 32) else c

/-- `leadsList w l` holds when `w` occurs at the very front of `l`. -/
def leadsList : List Char → List Char → Bool
  | [], _ => true
  | _ :: _, [] => false
  | a :: w, b :: l => a == b && leadsList w l

/-- Python substring containment: the `in` operator on strings. -/
def substrList (w p : List Char) : Bool :=
  (List.range (p.length + 1)).any fun i => leadsList w (p.drop i)

/-- `wordlist.contains_dictionary_word`, with the result of `load_wordlist`
supplied as a parameter: `none` models a missing `common_passwords.txt`
(`load_wordlist` raising `FileNotFoundError`, caught and turned into
`False`), `some wl` the cached set of loaded entries.  `load_wordlist`
strips each line and skips empty ones, so a loaded wordlist never holds the
empty entry. -/
def contains_dictionary_word (wordlist : Option (List (List Char)))
    (password : List Char) : Bool :=
  if password = [] then false
  else
    match wordlist with
    | none => false
    | some wl =>
      let password_lower := password.map py_lower
      if wl.contains password_lower then true
      else wl.any fun word => decide (4 ≤ word.length) &&
        substrList word password_lower

lemma leads_iff (w : List Char) : ∀ l : List Char,
    leadsList w l = true ↔ ∃ t, l = w ++ t := by
  induction w with
  | nil => intro l; simp [leadsList]
  | cons a w ih =>
    intro l
    cases l with
    | nil => simp [leadsList]
    | cons b l =>
      rw [leadsList, Bool.and_eq_true, beq_iff_eq, ih l]
      constructor
      · rintro ⟨rfl, t, rfl⟩; exact ⟨t, rfl⟩
      · rintro ⟨t, ht⟩
        injection ht with h1 h2
        exact ⟨h1.symm, t, h2⟩

lemma substr_iff (w p : List Char) :
    substrList w p = true ↔ ∃ s t, p = s ++ w ++ t := by
  rw [substrList]
  simp only [List.any_eq_true, List.mem_range, leads_iff]
  constructor
  · rintro ⟨i, hi, t, ht⟩
    refine ⟨p.take i, t, ?_⟩
    conv_lhs => rw [← List.take_append_drop i p]
    rw [ht, List.append_assoc]
  · rintro ⟨s, t, rfl⟩
    refine ⟨s.length, by simp; omega, t, ?_⟩
    rw [List.append_assoc, List.drop_left]

/-- C8: the dictionary check lowercases the password and holds exactly when
it equals a wordlist entry or some entry of length at least 4 occurs inside
it, and a missing wordlist resource yields false. -/
theorem claim_C8_dictionary (wl : List (List Char)) (p : List Char)
    (hwl : [] ∉ wl) :
    (contains_dictionary_word (some wl) p = true ↔
      p.map py_lower ∈ wl ∨
      ∃ w ∈ wl, 4 ≤ w.length ∧ ∃ s t, p.map py_lower = s ++ w ++ t) ∧
    contains_dictionary_word none p = false := by
  constructor
  · by_cases hp : p = []
    · subst hp
      rw [contains_dictionary_word, if_pos rfl]
      simp only [List.map_nil]
      constructor
      · intro h; exact absurd h (by simp)
      · rintro (h | ⟨w, hw, hlen, s, t, hst⟩)
        · exact absurd h hwl
        · have hw0 : w = [] :=
            (List.append_eq_nil.mp ((List.append_eq_nil.mp hst.symm).1)).2
          rw [hw0] at hlen
          simp at hlen
    · rw [contains_dictionary_word, if_neg hp]
      by_cases hc : wl.contains (p.map py_lower) = true
      · rw [if_pos hc]
        exact iff_of_true rfl (Or.inl (by simpa using hc))
      · rw [if_neg hc]
        have hnm : ¬ p.map py_lower ∈ wl := by simpa using hc
        simp only [List.any_eq_true, Bool.and_eq_true, decide_eq_true_eq,
          substr_iff]
        constructor
        · rintro ⟨w, hw, hlen, hs⟩; exact Or.inr ⟨w, hw, hlen, hs⟩
        · rintro (h | ⟨w, hw, hlen, hs⟩)
          · exact absurd h hnm
          · exact ⟨w, hw, hlen, hs⟩
  · by_cases hp : p = [] <;> simp [contains_dictionary_word, hp]

/-- Witness for C8: "Password123" contains the wordlist entry "password". -/
theorem claim_C8_dictionary_witness :
    contains_dictionary_word (some [("password").toList])
      (("Password123").toList) = true :=
  ((claim_C8_dictionary [("password").toList] (("Password123").toList)
      (by decide)).1).mpr
    (Or.inr ⟨("password").toList, by decide, by decide,
      [], ("123").toList, by decide⟩)

/-- Left rotation of a 32-bit word. -/
def rotl32 (n x : Nat) : Nat :=
  ((x <<< n) ||| (x >>> (32 - n))) % 4294967296

/-- UTF-8 encoding of one character (`password.encode("utf-8")`). -/
def utf8Bytes (c : Char) : List Nat :=
  let n := c.toNat
  if n < 128 then [n]
  else if n < 2048 then [192 + n / 64, 128 + n % 64]
  else if n < 65536 then [224 + n / 4096, 128 + (n / 64) % 64, 128 + n % 64]
  else [240 + n / 262144, 128 + (n / 4096) % 64, 128 + (n / 64) % 64, 128 + n % 64]

/-- SHA-1 padding: append 0x80, zero bytes up to 56 mod 64, then the 64-bit
big-endian bit length. -/
def sha1_pad (msg : List Nat) : List Nat :=
  let len := msg.length
  let zeros := (119 - len % 64) % 64
  msg ++ [128] ++ List.replicate zeros 0 ++
    [(8 * len) / 2 ^ 56 % 256, (8 * len) / 2 ^ 48 % 256,
     (8 * len) / 2 ^ 40 % 256, (8 * len) / 2 ^ 32 % 256,
     (8 * len) / 2 ^ 24 % 256, (8 * len) / 2 ^ 16 % 256,
     (8 * len) / 2 ^ 8 % 256, (8 * len) % 256]

/-- Split a byte list into 64-byte blocks; the fuel argument (instantiated
with the list length, an upper bound on the number of blocks) keeps the
recursion structural. -/
def chunks64Aux : Nat → List Nat → List (List Nat)
  | 0, _ => []
  | _ + 1, [] => []
  | fuel + 1, l => l.take 64 :: chunks64Aux fuel (l.drop 64)

/-- Split a byte list into 64-byte blocks. -/
def chunks64 (l : List Nat) : List (List Nat) := chunks64Aux l.length l

/-- The 16 initial 32-bit big-endian words of a 64-byte block. -/
def blockWords (block : List Nat) : List Nat :=
  (List.range 16).map fun i =>
    block.getD (4 * i) 0 * 16777216 + block.getD (4 * i + 1) 0 * 65536 +
    block.getD (4 * i + 2) 0 * 256 + block.getD (4 * i + 3) 0

/-- Extend the message schedule by `t` words:
`w[i] = rotl1(w[i-3] xor w[i-8] xor w[i-14] xor w[i-16])`. -/
def extendWords : Nat → List Nat → List Nat
  | 0, ws => ws
  | t + 1, ws =>
    let ws := extendWords t ws
    ws ++ [rotl32 1 (((ws.getD (ws.length - 3) 0 ^^^ ws.getD (ws.length - 8) 0) ^^^
      ws.getD (ws.length - 14) 0) ^^^ ws.getD (ws.length - 16) 0)]

/-- SHA-1 round constants. -/
def sha1_K (t : Nat) : Nat :=
  if t < 20 then 1518500249
  else if t < 40 then 1859775393
  else if t < 60 then 2400959708
  else 3395469782

/-- SHA-1 round functions; 32-bit complement is xor with `0xFFFFFFFF`. -/
def sha1_f (t b c d : Nat) : Nat :=
  if t < 20 then (b &&& c) ||| ((4294967295 ^^^ b) &&& d)
  else if t < 40 then (b ^^^ c) ^^^ d
  else if t < 60 then ((b &&& c) ||| (b &&& d)) ||| (c &&& d)
  else (b ^^^ c) ^^^ d

/-- One SHA-1 block compression. -/
def sha1_compress (h : Nat × Nat × Nat × Nat × Nat) (block : List Nat) :
    Nat × Nat × Nat × Nat × Nat :=
  let ws := extendWords 64 (blockWords block)
  let (h0, h1, h2, h3, h4) := h
  let step := fun (st : Nat × Nat × Nat × Nat × Nat) (t : Nat) =>
    let (a, b, c, d, e) := st
    let temp := (rotl32 5 a + sha1_f t b c d + e + sha1_K t + ws.getD t 0) % 4294967296
    (temp, a, rotl32 30 b, c, d)
  let (a, b, c, d, e) := (List.range 80).foldl step (h0, h1, h2, h3, h4)
  ((h0 + a) % 4294967296, (h1 + b) % 4294967296, (h2 + c) % 4294967296,
   (h3 + d) % 4294967296, (h4 + e) % 4294967296)

/-- SHA-1 digest of a byte string as five 32-bit words. -/
def sha1_words (msg : List Nat) : List Nat :=
  let blocks := chunks64 (sha1_pad msg)
  let (a, b, c, d, e) := blocks.foldl sha1_compress
    (1732584193, 4023233417, 2562383102, 271733878, 3285377520)
  [a, b, c, d, e]

/-- Uppercase hexadecimal digit. -/
def hexDigit (n : Nat) : Char :=
  (("0123456789ABCDEF").toList).getD n ('0')

/-- The 8 uppercase hex digits of a 32-bit word, most significant first. -/
def wordHex (w : Nat) : List Char :=
  [hexDigit (w / 2 ^ 28 % 16), hexDigit (w / 2 ^ 24 % 16),
   hexDigit (w / 2 ^ 20 % 16), hexDigit (w / 2 ^ 16 % 16),
   hexDigit (w / 2 ^ 12 % 16), hexDigit (w / 2 ^ 8 % 16),
   hexDigit (w / 2 ^ 4 % 16), hexDigit (w % 16)]

/-- `breach._sha1_hash`: uppercase hexadecimal SHA-1 of the UTF-8 encoded
password (`hashlib.sha1(...).hexdigest().upper()`, produced here directly
with uppercase digits). -/
def sha1_hash (password : List Char) : List Char :=
  ((sha1_words ((password.map utf8Bytes).flatten)).map wordHex).flatten

/-- A parsed `_api_request` response: the (suffix, count) pairs sharing the
queried 5-character block. -/
abbrev BreachResponse := List (List Char × Nat)

/-- The local scan of `check_breach` (step 3): walk the response in order and
return the count of the first pair whose suffix equals the local one. -/
def check_breach_scan (suffix : List Char) : BreachResponse → Bool × Nat
  | [] => (false, 0)
  | pr :: rest =>
    if pr.1 = suffix then (true, pr.2) else check_breach_scan suffix rest

/-- `breach.check_breach` with the parsed remote response supplied directly:
the empty-password short circuit, the hash split, and the local scan. -/
def check_breach_with (password : List Char) (resp : BreachResponse) :
    Bool × Nat :=
  if password = [] then (false, 0)
  else check_breach_scan ((sha1_hash password).drop 5) resp

/-- An execution trace of `check_breach`: the returned value (`none` models
the `for` loop falling through, which returns Python `None`), the number of
`_api_request` calls made, and the `time.sleep` waits in order. -/
structure BreachRun where
  ret : Option (Bool × Nat)
  calls : Nat
  sleeps : List Nat
deriving DecidableEq, Repr

/-- The retry loop of `check_breach` over the attempt indices still to run
(`range(max_retries)`).  `api a = some resp` models a successful
`_api_request` on attempt `a`; `none` models a raised exception.  A failure
on a non-final attempt sleeps `2 ^ attempt` seconds and continues; a failure
on the final attempt fails open with `(False, 0)`. -/
def check_breach_loop (suffix : List Char) (api : Nat → Option BreachResponse) :
    List Nat → BreachRun
  | [] => ⟨none, 0, []⟩
  | a :: rest =>
    match api a with
    | some resp => ⟨some (check_breach_scan suffix resp), 1, []⟩
    | none =>
      match rest with
      | [] => ⟨some (false, 0), 1, []⟩
      | b :: rest2 =>
        let r := check_breach_loop suffix api (b :: rest2)
        ⟨r.ret, r.calls + 1, 2 ^ a :: r.sleeps⟩

/-- `breach.check_breach` with the network modelled by the `api` oracle. -/
def check_breach (password : List Char) (api : Nat → Option BreachResponse)
    (max_retries : Nat := 3) : BreachRun :=
  if password = [] then ⟨some (false, 0), 0, []⟩
  else check_breach_loop ((sha1_hash password).drop 5) api
    (List.range max_retries)

lemma scan_not_found (suffix : List Char) (resp : BreachResponse)
    (h : ∀ pr ∈ resp, pr.1 ≠ suffix) :
    check_breach_scan suffix resp = (false, 0) := by
  induction resp with
  | nil => rfl
  | cons hd tl ih =>
    rw [check_breach_scan, if_neg (h hd (by simp))]
    exact ih (fun pr hpr => h pr (List.mem_cons_of_mem _ hpr))

lemma scan_found (suffix : List Char) (resp : BreachResponse)
    (h : ∃ pr ∈ resp, pr.1 = suffix) :
    ∃ c, (suffix, c) ∈ resp ∧ check_breach_scan suffix resp = (true, c) := by
  induction resp with
  | nil => simp at h
  | cons hd tl ih =>
    by_cases hh : hd.1 = suffix
    · refine ⟨hd.2, ?_, ?_⟩
      · have he : (suffix, hd.2) = hd := by rw [← hh]
        rw [he]; exact List.mem_cons_self _ _
      · rw [check_breach_scan, if_pos hh]
    · have htl : ∃ pr ∈ tl, pr.1 = suffix := by
        rcases h with ⟨pr, hpr, he⟩
        rcases List.mem_cons.mp hpr with rfl | hmem
        · exact absurd he hh
        · exact ⟨pr, hmem, he⟩
      rcases ih htl with ⟨c, hc, hscan⟩
      exact ⟨c, List.mem_cons_of_mem _ hc, by rw [check_breach_scan, if_neg hh, hscan]⟩

set_option maxRecDepth 10000 in
/-- C4 as frozen is false at the empty password: the scan is short-circuited
before any hash comparison, so a response carrying the matching suffix of
`SHA1("")` still reports not breached. -/
theorem claim_C4_breach_counterexample :
    (∃ pr ∈ [((sha1_hash []).drop 5, 1)], pr.1 = (sha1_hash []).drop 5) ∧
    check_breach_with [] [((sha1_hash []).drop 5, 1)] = (false, 0) :=
  ⟨⟨((sha1_hash []).drop 5, 1), by simp, rfl⟩, rfl⟩

set_option maxRecDepth 10000 in
/-- C4 (amended to nonempty passwords): `check_breach` hashes the password
with SHA-1 in uppercase hex, splits it after 5 characters, and reports
breached with the first matching count exactly when the response holds a
pair with the local suffix; `SHA1("password")` and its 5-character block
evaluate as the spec states. -/
theorem claim_C4_breach (p : List Char) (resp : BreachResponse) (hp : p ≠ []) :
    ((check_breach_with p resp).1 = true ↔
      ∃ pr ∈ resp, pr.1 = (sha1_hash p).drop 5) ∧
    ((∃ pr ∈ resp, pr.1 = (sha1_hash p).drop 5) →
      ∃ count, ((sha1_hash p).drop 5, count) ∈ resp ∧
        check_breach_with p resp = (true, count)) ∧
    ((∀ pr ∈ resp, pr.1 ≠ (sha1_hash p).drop 5) →
      check_breach_with p resp = (false, 0)) ∧
    sha1_hash (("password").toList) =
      ("5BAA61E4C9B93F3F0682250B6CF8331B7EE68FD8").toList ∧
    (sha1_hash (("password").toList)).take 5 = ("5BAA6").toList := by
  refine ⟨?_, ?_, ?_, by decide, by decide⟩
  · rw [check_breach_with, if_neg hp]
    by_cases hex : ∃ pr ∈ resp, pr.1 = (sha1_hash p).drop 5
    · rcases scan_found _ resp hex with ⟨c, _, hscan⟩
      rw [hscan]
      simpa using hex
    · have hall : ∀ pr ∈ resp, pr.1 ≠ (sha1_hash p).drop 5 := by
        intro pr hpr he
        exact hex ⟨pr, hpr, he⟩
      rw [scan_not_found _ resp hall]
      simpa using hex
  · intro hex
    rcases scan_found _ resp hex with ⟨c, hc, hscan⟩
    exact ⟨c, hc, by rw [check_breach_with, if_neg hp, hscan]⟩
  · intro hnone
    rw [check_breach_with, if_neg hp, scan_not_found _ resp hnone]

set_option maxRecDepth 10000 in
/-- Witness for C4 on the spec's mocked response for "password". -/
theorem claim_C4_breach_witness :
    check_breach_with (("password").toList)
      [(("1E4C9B93F3F0682250B6CF8331B7EE68FD8").toList, 3861493)] =
      (true, 3861493) := by
  obtain ⟨c, hc, heq⟩ := (claim_C4_breach (("password").toList)
      [(("1E4C9B93F3F0682250B6CF8331B7EE68FD8").toList, 3861493)]
      (by decide)).2.1
    ⟨(("1E4C9B93F3F0682250B6CF8331B7EE68FD8").toList, 3861493),
     by simp, by decide⟩
  rw [List.mem_singleton, Prod.mk.injEq] at hc
  rw [heq, hc.2]

lemma loop_all_fail (suffix : List Char) (api : Nat → Option BreachResponse)
    (hapi : ∀ n, api n = none) :
    ∀ l : List Nat, l ≠ [] →
      check_breach_loop suffix api l =
        ⟨some (false, 0), l.length, l.dropLast.map (2 ^ ·)⟩ := by
  intro l
  induction l with
  | nil => intro h; exact absurd rfl h
  | cons a tl ih =>
    intro _
    cases tl with
    | nil => rw [check_breach_loop, hapi a]; rfl
    | cons b rest =>
      rw [check_breach_loop, hapi a, ih (by simp)]
      simp [List.dropLast]

/-- C5: when every attempt fails, `check_breach` issues exactly
`max_retries` requests, sleeps `2 ^ attempt` seconds between consecutive
attempts (1s, 2s, ...), and then returns `(False, 0)` instead of raising;
the empty password returns `(False, 0)` with no request at all. -/
theorem claim_C5_retry (p : List Char) (api : Nat → Option BreachResponse)
    (max_retries : Nat) (hp : p ≠ []) (hm : 1 ≤ max_retries)
    (hapi : ∀ n, api n = none) :
    check_breach p api max_retries =
      ⟨some (false, 0), max_retries,
       (List.range (max_retries - 1)).map (2 ^ ·)⟩ ∧
    ∀ (api2 : Nat → Option BreachResponse) (m : Nat),
      check_breach [] api2 m = ⟨some (false, 0), 0, []⟩ := by
  constructor
  · have hne : List.range max_retries ≠ [] := by
      simp only [ne_eq, List.range_eq_nil]
      omega
    rw [check_breach, if_neg hp, loop_all_fail _ api hapi _ hne]
    have hdl : (List.range max_retries).dropLast = List.range (max_retries - 1) := by
      cases max_retries with
      | zero => rfl
      | succ k => rw [List.range_succ, List.dropLast_concat]; simp
    rw [hdl, List.length_range]
  · intro api2 m
    rw [check_breach, if_pos rfl]

/-- Witness for C5: three failing attempts on a one-letter password. -/
theorem claim_C5_retry_witness :
    check_breach (("a").toList) (fun _ => none) 3 =
      ⟨some (false, 0), 3, [1, 2]⟩ := by
  have h := (claim_C5_retry (("a").toList) (fun _ => none) 3
    (by decide) (by omega) (fun _ => rfl)).1
  rw [h]
  rfl

/-- `generator.AMBIGUOUS`: characters excluded under `avoid_ambiguous`. -/
def AMBIGUOUS : List Char := ("0O1lI").toList

/-- The ambiguous-character filtering applied inside each alphanumeric class
block: `chars = ''.join(c for c in chars if c not in AMBIGUOUS)` when
`avoid_ambiguous` is set. -/
def filterAmbiguous (avoid_ambiguous : Bool) (chars : List Char) : List Char :=
  if avoid_ambiguous then chars.filter (fun c => !(AMBIGUOUS.contains c))
  else chars

/-- One `if use_x:` block of `generate_password`: extend the pool with the
(already filtered) class alphabet and draw one required character from it
with `secrets.choice`.  The draw counter is the number of required
characters drawn so far. -/
def classStep (choose : Nat → List Char → Char)
    (acc : List Char × List Char) (spec : Bool × List Char) :
    List Char × List Char :=
  if spec.1 then (acc.1 ++ spec.2, acc.2 ++ [choose acc.2.length spec.2])
  else acc

/-- The four class blocks of `generate_password` in source order; symbols
are never filtered for ambiguity. -/
def classSpecs (use_lowercase use_uppercase use_digits use_symbols
    avoid_ambiguous : Bool) : List (Bool × List Char) :=
  [(use_lowercase, filterAmbiguous avoid_ambiguous ascii_lowercase),
   (use_uppercase, filterAmbiguous avoid_ambiguous ascii_uppercase),
   (use_digits, filterAmbiguous avoid_ambiguous ascii_digits),
   (use_symbols, ascii_punctuation)]

/-- The combined `char_pool` a run of `generate_password` assembles. -/
def selectedPool (specs : List (Bool × List Char)) : List Char :=
  (specs.map (fun s => if s.1 then s.2 else [])).flatten

/-- The `(char_pool, required_chars)` pair a run of `generate_password`
builds through its four class blocks. -/
def genFold (use_lowercase use_uppercase use_digits use_symbols
    avoid_ambiguous : Bool) (choose : Nat → List Char → Char) :
    List Char × List Char :=
  (classSpecs use_lowercase use_uppercase use_digits use_symbols
    avoid_ambiguous).foldl (classStep choose) ([], [])

/-- `generator.generate_password` with `secrets.choice` modelled by the
oracle `choose` (indexed by the number of draws made so far) and
`secrets.SystemRandom().shuffle` by the oracle `shuffle`.  The
`isinstance(length, int)` check is enforced by the type of `length`; the
source's `char_pool` / `required_chars` locals are `(genFold ...).1` /
`(genFold ...).2`, and the remaining `length - len(required_chars)`
positions are filled with draws from the full pool before the final
shuffle. -/
def generate_password (length : Nat)
    (use_lowercase use_uppercase use_digits use_symbols avoid_ambiguous : Bool)
    (choose : Nat → List Char → Char) (shuffle : List Char → List Char) :
    Except String (List Char) :=
  if length < 8 then
    Except.error "Password length must be at least 8 characters"
  else if 128 < length then
    Except.error "Password length must not exceed 128 characters"
  else if (genFold use_lowercase use_uppercase use_digits use_symbols
      avoid_ambiguous choose).1 = [] then
    Except.error "At least one character set must be selected"
  else
    Except.ok (shuffle
      ((genFold use_lowercase use_uppercase use_digits use_symbols
          avoid_ambiguous choose).2 ++
        (List.range (length - (genFold use_lowercase use_uppercase use_digits
            use_symbols avoid_ambiguous choose).2.length)).map
          (fun k => choose
            ((genFold use_lowercase use_uppercase use_digits use_symbols
                avoid_ambiguous choose).2.length + k)
            (genFold use_lowercase use_uppercase use_digits use_symbols
              avoid_ambiguous choose).1)))

lemma foldl_classStep_pool (choose : Nat → List Char → Char)
    (specs : List (Bool × List Char)) :
    ∀ acc : List Char × List Char,
      (specs.foldl (classStep choose) acc).1 = acc.1 ++ selectedPool specs := by
  induction specs with
  | nil => intro acc; simp [selectedPool]
  | cons s t ih =>
    intro acc
    rw [List.foldl_cons, ih]
    by_cases hs : s.1 = true <;>
      simp [classStep, hs, selectedPool, List.append_assoc]

lemma foldl_classStep_req_append (choose : Nat → List Char → Char)
    (specs : List (Bool × List Char)) :
    ∀ acc : List Char × List Char,
      ∃ ext, (specs.foldl (classStep choose) acc).2 = acc.2 ++ ext := by
  induction specs with
  | nil => intro acc; exact ⟨[], by simp⟩
  | cons s t ih =>
    intro acc
    by_cases hs : s.1 = true
    · rcases ih (acc.1 ++ s.2, acc.2 ++ [choose acc.2.length s.2]) with ⟨ext, hext⟩
      refine ⟨choose acc.2.length s.2 :: ext, ?_⟩
      rw [List.foldl_cons, classStep, if_pos hs, hext, List.append_assoc]
      rfl
    · rcases ih acc with ⟨ext, hext⟩
      refine ⟨ext, ?_⟩
      rw [List.foldl_cons, classStep, if_neg hs, hext]

lemma foldl_classStep_req_mem (choose : Nat → List Char → Char)
    (hchoose : ∀ n l, l ≠ [] → choose n l ∈ l)
    (specs : List (Bool × List Char)) :
    ∀ acc : List Char × List Char, (∀ s ∈ specs, s.1 = true → s.2 ≠ []) →
      ∀ c ∈ (specs.foldl (classStep choose) acc).2,
        c ∈ acc.2 ∨ ∃ s ∈ specs, s.1 = true ∧ c ∈ s.2 := by
  induction specs with
  | nil => intro acc _ c hc; exact Or.inl (by simpa using hc)
  | cons s t ih =>
    intro acc hne c hc
    by_cases hs : s.1 = true
    · rw [List.foldl_cons, classStep, if_pos hs] at hc
      rcases ih (acc.1 ++ s.2, acc.2 ++ [choose acc.2.length s.2])
          (fun s2 h2 => hne s2 (List.mem_cons_of_mem _ h2)) c hc with h | ⟨s2, h2, hs2, hc2⟩
      · rcases List.mem_append.mp h with h | h
        · exact Or.inl h
        · have : c = choose acc.2.length s.2 := by simpa using h
          refine Or.inr ⟨s, List.mem_cons_self _ _, hs, ?_⟩
          rw [this]
          exact hchoose _ _ (hne s (List.mem_cons_self _ _) hs)
      · exact Or.inr ⟨s2, List.mem_cons_of_mem _ h2, hs2, hc2⟩
    · rw [List.foldl_cons, classStep, if_neg hs] at hc
      rcases ih acc (fun s2 h2 => hne s2 (List.mem_cons_of_mem _ h2)) c hc with h | ⟨s2, h2, hs2, hc2⟩
      · exact Or.inl h
      · exact Or.inr ⟨s2, List.mem_cons_of_mem _ h2, hs2, hc2⟩

lemma foldl_classStep_req_cover (choose : Nat → List Char → Char)
    (hchoose : ∀ n l, l ≠ [] → choose n l ∈ l)
    (specs : List (Bool × List Char)) :
    ∀ acc : List Char × List Char, ∀ s ∈ specs, s.1 = true → s.2 ≠ [] →
      ∃ c ∈ (specs.foldl (classStep choose) acc).2, c ∈ s.2 := by
  induction specs with
  | nil => intro acc s hs; simp at hs
  | cons s0 t ih =>
    intro acc s hs hs1 hs2
    rcases List.mem_cons.mp hs with rfl | hmem
    · rw [List.foldl_cons, classStep, if_pos hs1]
      rcases foldl_classStep_req_append choose t
          (acc.1 ++ s.2, acc.2 ++ [choose acc.2.length s.2]) with ⟨ext, hext⟩
      refine ⟨choose acc.2.length s.2, ?_, hchoose _ _ hs2⟩
      rw [hext]
      simp
    · rw [List.foldl_cons]
      exact ih (classStep choose acc s0) s hmem hs1 hs2

lemma foldl_classStep_req_len (choose : Nat → List Char → Char)
    (specs : List (Bool × List Char)) :
    ∀ acc : List Char × List Char,
      (specs.foldl (classStep choose) acc).2.length ≤
        acc.2.length + specs.length := by
  induction specs with
  | nil => intro acc; simp
  | cons s t ih =>
    intro acc
    rw [List.foldl_cons]
    refine le_trans (ih (classStep choose acc s)) ?_
    by_cases hs : s.1 = true <;> simp [classStep, hs]
    omega

lemma filterAmbiguous_sub (a : Bool) (l : List Char) :
    ∀ c ∈ filterAmbiguous a l, c ∈ l := by
  intro c hc
  rw [filterAmbiguous] at hc
  cases a
  · simpa using hc
  · rw [if_pos rfl] at hc
    exact List.mem_of_mem_filter hc

lemma filterAmbiguous_not_amb (l : List Char) :
    ∀ c ∈ filterAmbiguous true l, c ∉ AMBIGUOUS := by
  intro c hc
  rw [filterAmbiguous, if_pos rfl] at hc
  have h := (List.mem_filter.mp hc).2
  simpa using h

lemma punct_not_amb : ∀ c ∈ ascii_punctuation, c ∉ AMBIGUOUS := by decide

lemma filterAmbiguous_lower_ne (a : Bool) :
    filterAmbiguous a ascii_lowercase ≠ [] := by
  cases a <;> decide

lemma filterAmbiguous_upper_ne (a : Bool) :
    filterAmbiguous a ascii_uppercase ≠ [] := by
  cases a <;> decide

lemma filterAmbiguous_digits_ne (a : Bool) :
    filterAmbiguous a ascii_digits ≠ [] := by
  cases a <;> decide

lemma classSpecs_ne (uL uU uD uS a : Bool) :
    ∀ s ∈ classSpecs uL uU uD uS a, s.1 = true → s.2 ≠ [] := by
  intro s hs _
  simp only [classSpecs, List.mem_cons, List.not_mem_nil, or_false] at hs
  rcases hs with rfl | rfl | rfl | rfl
  · exact filterAmbiguous_lower_ne a
  · exact filterAmbiguous_upper_ne a
  · exact filterAmbiguous_digits_ne a
  · exact (by decide : ascii_punctuation ≠ [])

lemma selectedPool_mem (specs : List (Bool × List Char)) (s : Bool × List Char)
    (hs : s ∈ specs) (h1 : s.1 = true) : ∀ c ∈ s.2, c ∈ selectedPool specs := by
  intro c hc
  rw [selectedPool, List.mem_flatten]
  refine ⟨s.2, ?_, hc⟩
  have he : (if s.1 then s.2 else []) = s.2 := by rw [if_pos h1]
  exact he ▸ List.mem_map_of_mem _ hs

lemma selectedPool_mem_rev (specs : List (Bool × List Char)) :
    ∀ c ∈ selectedPool specs, ∃ s ∈ specs, s.1 = true ∧ c ∈ s.2 := by
  intro c hc
  rw [selectedPool, List.mem_flatten] at hc
  rcases hc with ⟨l, hl, hcl⟩
  rcases List.mem_map.mp hl with ⟨s, hs, rfl⟩
  by_cases h1 : s.1 = true
  · rw [if_pos h1] at hcl
    exact ⟨s, hs, h1, hcl⟩
  · rw [if_neg h1] at hcl
    simp at hcl

lemma lower_punct_disj : ∀ c ∈ ascii_lowercase, c ∉ ascii_punctuation := by decide

lemma upper_punct_disj : ∀ c ∈ ascii_uppercase, c ∉ ascii_punctuation := by decide

lemma digits_punct_disj : ∀ c ∈ ascii_digits, c ∉ ascii_punctuation := by decide

lemma lower_digits_disj : ∀ c ∈ ascii_lowercase, c ∉ ascii_digits := by decide

lemma upper_digits_disj : ∀ c ∈ ascii_uppercase, c ∉ ascii_digits := by decide

lemma punct_digits_disj : ∀ c ∈ ascii_punctuation, c ∉ ascii_digits := by decide

lemma pool_not_amb (uL uU uD uS : Bool) (c : Char)
    (hc : ∃ s ∈ classSpecs uL uU uD uS true, s.1 = true ∧ c ∈ s.2) :
    c ∉ AMBIGUOUS := by
  rcases hc with ⟨s, hs, _, hc⟩
  simp only [classSpecs, List.mem_cons, List.not_mem_nil, or_false] at hs
  rcases hs with rfl | rfl | rfl | rfl
  · exact filterAmbiguous_not_amb _ c hc
  · exact filterAmbiguous_not_amb _ c hc
  · exact filterAmbiguous_not_amb _ c hc
  · exact punct_not_amb c hc

lemma genFold_pool (uL uU uD uS a : Bool) (choose : Nat → List Char → Char) :
    (genFold uL uU uD uS a choose).1 = selectedPool (classSpecs uL uU uD uS a) := by
  rw [genFold, foldl_classStep_pool]
  simp

lemma genFold_req_mem (uL uU uD uS a : Bool) (choose : Nat → List Char → Char)
    (hchoose : ∀ n l, l ≠ [] → choose n l ∈ l) :
    ∀ c ∈ (genFold uL uU uD uS a choose).2,
      ∃ s ∈ classSpecs uL uU uD uS a, s.1 = true ∧ c ∈ s.2 := by
  intro c hc
  rcases foldl_classStep_req_mem choose hchoose _ ([], [])
      (classSpecs_ne uL uU uD uS a) c hc with h | h
  · simp at h
  · exact h

/-- C6: a valid request (length within `[8, 128]`, at least one class
selected) yields a password of exactly the requested length containing at
least one character of every selected class, free of `0O1lI` under
`avoid_ambiguous`; an invalid length or an empty class selection yields a
validation error. -/
theorem claim_C6_generate (length : Nat) (uL uU uD uS avoid : Bool)
    (choose : Nat → List Char → Char) (shuffle : List Char → List Char)
    (hchoose : ∀ n l, l ≠ [] → choose n l ∈ l)
    (hshuffle : ∀ l, (shuffle l).Perm l) :
    (8 ≤ length → length ≤ 128 →
      (uL = true ∨ uU = true ∨ uD = true ∨ uS = true) →
      ∃ pwd, generate_password length uL uU uD uS avoid choose shuffle =
          Except.ok pwd ∧
        pwd.length = length ∧
        (uL = true → ∃ c ∈ pwd, c ∈ ascii_lowercase) ∧
        (uU = true → ∃ c ∈ pwd, c ∈ ascii_uppercase) ∧
        (uD = true → ∃ c ∈ pwd, c ∈ ascii_digits) ∧
        (uS = true → ∃ c ∈ pwd, c ∈ ascii_punctuation) ∧
        (avoid = true → ∀ c ∈ pwd, c ∉ AMBIGUOUS)) ∧
    ((length < 8 ∨ 128 < length ∨
        (uL = false ∧ uU = false ∧ uD = false ∧ uS = false)) →
      ∃ msg, generate_password length uL uU uD uS avoid choose shuffle =
        Except.error msg) := by
  constructor
  · intro h8 h128 hflag
    have hnepool : (genFold uL uU uD uS avoid choose).1 ≠ [] := by
      rw [genFold_pool]
      have hx : ∃ s ∈ classSpecs uL uU uD uS avoid, s.1 = true ∧ s.2 ≠ [] := by
        rcases hflag with h | h | h | h
        · exact ⟨(uL, filterAmbiguous avoid ascii_lowercase),
            by simp [classSpecs], h, filterAmbiguous_lower_ne avoid⟩
        · exact ⟨(uU, filterAmbiguous avoid ascii_uppercase),
            by simp [classSpecs], h, filterAmbiguous_upper_ne avoid⟩
        · exact ⟨(uD, filterAmbiguous avoid ascii_digits),
            by simp [classSpecs], h, filterAmbiguous_digits_ne avoid⟩
        · exact ⟨(uS, ascii_punctuation), by simp [classSpecs], h,
            (by decide : ascii_punctuation ≠ [])⟩
      rcases hx with ⟨s, hs, h1, h2⟩
      rcases List.exists_mem_of_ne_nil s.2 h2 with ⟨c, hc⟩
      exact List.ne_nil_of_mem (selectedPool_mem _ s hs h1 c hc)
    have hreqlen : (genFold uL uU uD uS avoid choose).2.length ≤ 4 := by
      have := foldl_classStep_req_len choose (classSpecs uL uU uD uS avoid) ([], [])
      simpa [genFold, classSpecs] using this
    set pr := genFold uL uU uD uS avoid choose with hprdef
    set fill := (List.range (length - pr.2.length)).map
      (fun k => choose (pr.2.length + k) pr.1) with hfill
    have hgen : generate_password length uL uU uD uS avoid choose shuffle =
        Except.ok (shuffle (pr.2 ++ fill)) := by
      rw [generate_password, if_neg (by omega), if_neg (by omega),
          if_neg hnepool]
    have hmemiff : ∀ c, c ∈ shuffle (pr.2 ++ fill) ↔ c ∈ pr.2 ++ fill :=
      fun c => (hshuffle (pr.2 ++ fill)).mem_iff
    have hcover : ∀ s ∈ classSpecs uL uU uD uS avoid, s.1 = true →
        ∃ c ∈ shuffle (pr.2 ++ fill), c ∈ s.2 := by
      intro s hs h1
      rcases foldl_classStep_req_cover choose hchoose _ ([], []) s hs h1
          (classSpecs_ne uL uU uD uS avoid s hs h1) with ⟨c, hcr, hcs⟩
      exact ⟨c, (hmemiff c).mpr (List.mem_append_left _ hcr), hcs⟩
    refine ⟨shuffle (pr.2 ++ fill), hgen, ?_, ?_, ?_, ?_, ?_, ?_⟩
    · rw [(hshuffle (pr.2 ++ fill)).length_eq]
      simp only [List.length_append, hfill, List.length_map, List.length_range]
      omega
    · intro h
      rcases hcover (uL, filterAmbiguous avoid ascii_lowercase)
          (by simp [classSpecs]) h with ⟨c, hcp, hcs⟩
      exact ⟨c, hcp, filterAmbiguous_sub avoid _ c hcs⟩
    · intro h
      rcases hcover (uU, filterAmbiguous avoid ascii_uppercase)
          (by simp [classSpecs]) h with ⟨c, hcp, hcs⟩
      exact ⟨c, hcp, filterAmbiguous_sub avoid _ c hcs⟩
    · intro h
      rcases hcover (uD, filterAmbiguous avoid ascii_digits)
          (by simp [classSpecs]) h with ⟨c, hcp, hcs⟩
      exact ⟨c, hcp, filterAmbiguous_sub avoid _ c hcs⟩
    · intro h
      rcases hcover (uS, ascii_punctuation) (by simp [classSpecs]) h with
        ⟨c, hcp, hcs⟩
      exact ⟨c, hcp, hcs⟩
    · intro ha c hc
      subst ha
      rcases List.mem_append.mp ((hmemiff c).mp hc) with hcr | hcf
      · exact pool_not_amb uL uU uD uS c (genFold_req_mem _ _ _ _ _ choose hchoose c hcr)
      · rcases List.mem_map.mp hcf with ⟨k, _, rfl⟩
        have hpe : pr.1 = selectedPool (classSpecs uL uU uD uS true) := by
          rw [hprdef, genFold_pool]
        have hcp : choose (pr.2.length + k) pr.1 ∈ pr.1 := hchoose _ _ hnepool
        rw [hpe] at hcp ⊢
        exact pool_not_amb uL uU uD uS _ (selectedPool_mem_rev _ _ hcp)
  · intro h
    by_cases h8 : length < 8
    · exact ⟨_, by rw [generate_password, if_pos h8]⟩
    · by_cases h128 : 128 < length
      · exact ⟨_, by rw [generate_password, if_neg h8, if_pos h128]⟩
      · rcases h with h | h | ⟨h1, h2, h3, h4⟩
        · exact absurd h h8
        · exact absurd h h128
        · subst h1; subst h2; subst h3; subst h4
          have hempty : (genFold false false false false avoid choose).1 = [] := by
            rw [genFold_pool]
            simp [selectedPool, classSpecs]
          exact ⟨_, by rw [generate_password, if_neg h8, if_neg h128, if_pos hempty]⟩

/-- Witness for C6: a concrete secure source (always the first pool element)
and the identity shuffle at length 8 with every class and ambiguity
avoidance on. -/
theorem claim_C6_generate_witness :
    ∃ pwd, generate_password 8 true true true true true
        (fun _ l => l.headD ('a')) (fun l => l) = Except.ok pwd ∧
      pwd.length = 8 ∧
      (true = true → ∃ c ∈ pwd, c ∈ ascii_lowercase) ∧
      (true = true → ∃ c ∈ pwd, c ∈ ascii_uppercase) ∧
      (true = true → ∃ c ∈ pwd, c ∈ ascii_digits) ∧
      (true = true → ∃ c ∈ pwd, c ∈ ascii_punctuation) ∧
      (true = true → ∀ c ∈ pwd, c ∉ AMBIGUOUS) :=
  (claim_C6_generate 8 true true true true true
      (fun _ l => l.headD ('a')) (fun l => l)
      (fun _ l hl => by
        cases l with
        | nil => exact absurd rfl hl
        | cons a t => exact List.mem_cons_self a t)
      (fun l => List.Perm.refl l)).1
    (by omega) (by omega) (Or.inl rfl)

/-- C10 (implicit): every character of a generated password lies in the
union of the selected (ambiguity-filtered) class alphabets; a deselected
class never contributes, in particular no punctuation when symbols are off
and no digit when digits are off. -/
theorem claim_C10_generate_pool (length : Nat) (uL uU uD uS avoid : Bool)
    (choose : Nat → List Char → Char) (shuffle : List Char → List Char)
    (pwd : List Char)
    (hchoose : ∀ n l, l ≠ [] → choose n l ∈ l)
    (hshuffle : ∀ l, (shuffle l).Perm l)
    (hok : generate_password length uL uU uD uS avoid choose shuffle =
      Except.ok pwd) :
    (∀ c ∈ pwd, c ∈ selectedPool (classSpecs uL uU uD uS avoid)) ∧
    (uS = false → ∀ c ∈ pwd, c ∉ ascii_punctuation) ∧
    (uD = false → ∀ c ∈ pwd, c ∉ ascii_digits) := by
  rw [generate_password] at hok
  by_cases h8 : length < 8
  · rw [if_pos h8] at hok; exact absurd hok (by simp)
  rw [if_neg h8] at hok
  by_cases h128 : 128 < length
  · rw [if_pos h128] at hok; exact absurd hok (by simp)
  rw [if_neg h128] at hok
  by_cases hpool : (genFold uL uU uD uS avoid choose).1 = []
  · rw [if_pos hpool] at hok; exact absurd hok (by simp)
  rw [if_neg hpool] at hok
  have hpwd : pwd = shuffle ((genFold uL uU uD uS avoid choose).2 ++
      (List.range (length - (genFold uL uU uD uS avoid choose).2.length)).map
        (fun k => choose ((genFold uL uU uD uS avoid choose).2.length + k)
          (genFold uL uU uD uS avoid choose).1)) :=
    (Except.ok.injEq _ _).mp hok.symm
  have hmain : ∀ c ∈ pwd, c ∈ selectedPool (classSpecs uL uU uD uS avoid) := by
    intro c hc
    rw [hpwd] at hc
    rcases List.mem_append.mp ((hshuffle _).mem_iff.mp hc) with hcr | hcf
    · rcases genFold_req_mem _ _ _ _ _ choose hchoose c hcr with ⟨s, hs, h1, hcs⟩
      exact selectedPool_mem _ s hs h1 c hcs
    · rcases List.mem_map.mp hcf with ⟨k, _, rfl⟩
      have hpe : (genFold uL uU uD uS avoid choose).1 =
          selectedPool (classSpecs uL uU uD uS avoid) :=
        genFold_pool uL uU uD uS avoid choose
      have hcp := hchoose ((genFold uL uU uD uS avoid choose).2.length + k) _ hpool
      rw [hpe] at hcp ⊢
      exact hcp
  refine ⟨hmain, ?_, ?_⟩
  · intro hS c hc
    rcases selectedPool_mem_rev _ c (hmain c hc) with ⟨s, hs, h1, hcs⟩
    simp only [classSpecs, List.mem_cons, List.not_mem_nil, or_false] at hs
    rcases hs with rfl | rfl | rfl | rfl
    · exact lower_punct_disj c (filterAmbiguous_sub avoid _ c hcs)
    · exact upper_punct_disj c (filterAmbiguous_sub avoid _ c hcs)
    · exact digits_punct_disj c (filterAmbiguous_sub avoid _ c hcs)
    · rw [hS] at h1; simp at h1
  · intro hD c hc
    rcases selectedPool_mem_rev _ c (hmain c hc) with ⟨s, hs, h1, hcs⟩
    simp only [classSpecs, List.mem_cons, List.not_mem_nil, or_false] at hs
    rcases hs with rfl | rfl | rfl | rfl
    · exact lower_digits_disj c (filterAmbiguous_sub avoid _ c hcs)
    · exact upper_digits_disj c (filterAmbiguous_sub avoid _ c hcs)
    · rw [hD] at h1; simp at h1
    · exact punct_digits_disj c hcs

/-- Witness for C10: a deterministic run with symbols and digits off
contains only letters. -/
theorem claim_C10_generate_pool_witness :
    (∀ c ∈ (("aAaaaaaa").toList),
      c ∈ selectedPool (classSpecs true true false false false)) ∧
    (false = false → ∀ c ∈ (("aAaaaaaa").toList), c ∉ ascii_punctuation) ∧
    (false = false → ∀ c ∈ (("aAaaaaaa").toList), c ∉ ascii_digits) :=
  claim_C10_generate_pool 8 true true false false false
    (fun _ l => l.headD ('a')) (fun l => l) (("aAaaaaaa").toList)
    (fun _ l hl => by
      cases l with
      | nil => exact absurd rfl hl
      | cons a t => exact List.mem_cons_self a t)
    (fun l => List.Perm.refl l)
    (by rfl)

/-- `patterns.COMMON_PATTERNS`: the fixed list of weak-password substrings. -/
def COMMON_PATTERNS : List (List Char) :=
  [("password").toList, ("123456").toList, ("qwerty").toList,
   ("abc123").toList, ("letmein").toList, ("welcome").toList,
   ("monkey").toList, ("dragon").toList, ("master").toList,
   ("admin").toList, ("login").toList, ("passw0rd").toList,
   ("password1").toList, ("123456789").toList, ("12345678").toList,
   ("iloveyou").toList, ("princess").toList, ("trustno1").toList,
   ("superman").toList, ("baseball").toList]

/-- `patterns.has_common_pattern`: case-insensitive substring containment
against `COMMON_PATTERNS`. -/
def has_common_pattern (password : List Char) : Bool :=
  if password = [] then false
  else COMMON_PATTERNS.any fun pat => substrList pat (password.map py_lower)

/-- `analyzer._check_criteria`, with the loaded wordlist supplied as in
`contains_dictionary_word`. -/
def check_criteria (wordlist : Option (List (List Char)))
    (password : List Char) : Criteria where
  min_length := decide (12 ≤ password.length)
  has_lowercase := password.any (fun c => ascii_lowercase.contains c)
  has_uppercase := password.any (fun c => ascii_uppercase.contains c)
  has_digits := password.any (fun c => ascii_digits.contains c)
  has_symbols := password.any (fun c => ascii_punctuation.contains c)
  no_common_patterns := !(has_common_pattern password)
  no_dictionary_words := !(contains_dictionary_word wordlist password)
  no_sequential_chars := !(has_sequential_chars password 3)

/-- The `breach_status` dict of `analyzer.analyze_password`. -/
structure BreachStatus where
  checked : Bool
  found : Bool
  occurrence_count : Nat
deriving DecidableEq, Repr

/-- The `breach_status` assembly of `analyze_password` (lines 268-281):
`breach_result = some (b, c)` models `check_breach` returning `(b, c)`;
`none` models an exception escaping the breach client, caught by the
orchestrator's `except` and treated as not checked; a `false` flag skips
the call entirely. -/
def orchestrate_breach_status (check_breach_status : Bool)
    (breach_result : Option (Bool × Nat)) : BreachStatus :=
  if check_breach_status then
    match breach_result with
    | some bc => ⟨true, bc.1, bc.2⟩
    | none => ⟨false, false, 0⟩
  else ⟨false, false, 0⟩

/-- The analysis record of `models.analysis.PasswordAnalysis`, restricted to
the fields the verified claims touch (the SHA-256 audit fingerprint, the
timestamp, the recommendation strings and the formatted crack times are
presentation data not referenced by any claim). -/
structure PasswordAnalysis where
  strength_score : Nat
  strength_rating : String
  length : Nat
  entropy_bits : ℚ
  character_pool_size : Nat
  criteria_met : Criteria
  breach_status : BreachStatus

/-- `analyzer.analyze_password` over the oracles for `math.log2`, the loaded
wordlist, and the breach-check outcome. -/
def analyze_password (log2 : Nat → ℚ) (wordlist : Option (List (List Char)))
    (breach_result : Option (Bool × Nat)) (password : List Char)
    (check_breach_status : Bool := true) : PasswordAnalysis where
  strength_score := calculate_strength_score (check_criteria wordlist password)
    (calculate_entropy log2 password).1
  strength_rating := determine_rating
    (calculate_strength_score (check_criteria wordlist password)
      (calculate_entropy log2 password).1)
  length := password.length
  entropy_bits := (calculate_entropy log2 password).1
  character_pool_size := (calculate_entropy log2 password).2
  criteria_met := check_criteria wordlist password
  breach_status := orchestrate_breach_status check_breach_status breach_result

/-- C9: every record `analyze_password` produces satisfies
`found → checked`, and a disabled, skipped or failed breach check reports
`found = false` with a zero count. -/
theorem claim_C9_breach_invariant (log2 : Nat → ℚ)
    (wordlist : Option (List (List Char)))
    (breach_result : Option (Bool × Nat)) (password : List Char)
    (check : Bool) :
    ((analyze_password log2 wordlist breach_result password check).breach_status.found = true →
      (analyze_password log2 wordlist breach_result password check).breach_status.checked = true) ∧
    (check = false ∨ breach_result = none →
      (analyze_password log2 wordlist breach_result password check).breach_status.found = false ∧
      (analyze_password log2 wordlist breach_result password check).breach_status.occurrence_count = 0) := by
  constructor
  · intro hf
    show (orchestrate_breach_status check breach_result).checked = true
    have hf2 : (orchestrate_breach_status check breach_result).found = true := hf
    cases check with
    | false => exact absurd hf2 (by simp [orchestrate_breach_status])
    | true =>
      cases breach_result with
      | none => exact absurd hf2 (by simp [orchestrate_breach_status])
      | some bc => simp [orchestrate_breach_status]
  · intro h
    show (orchestrate_breach_status check breach_result).found = false ∧
      (orchestrate_breach_status check breach_result).occurrence_count = 0
    rcases h with rfl | rfl
    · simp [orchestrate_breach_status]
    · cases check <;> simp [orchestrate_breach_status]

/-- Witness for C9: a disabled breach check reports not found with count 0
even when the client would have answered breached. -/
theorem claim_C9_breach_invariant_witness :
    (analyze_password (fun _ => 0) none (some (true, 5)) (("abc").toList)
      false).breach_status.found = false ∧
    (analyze_password (fun _ => 0) none (some (true, 5)) (("abc").toList)
      false).breach_status.occurrence_count = 0 :=
  (claim_C9_breach_invariant (fun _ => 0) none (some (true, 5))
    (("abc").toList) false).2 (Or.inl rfl)

end SecurePass
